import Mathlib

/-!
# Verification of the aurdex unified package store and dependency resolver

Shallow embedding of `src/aurdex/db.py`: the SQLite-backed package store
(`PackageDB`), its synchronization pipeline (`_ingest_aur_full`,
`_insert_repo_pkg`, `_update_repo_incrementally`, `_rebuild`,
`_update_database`), the provider/dependant queries
(`search_by_provides`, `get_enriched_dependencies`, `get_dependants`),
and the dependency resolver (`DependencyResolver._dfs_deep` /
`_dfs_shallow` / `resolve_dependency_tree_*`).

Tables are modelled as lists of rows; only the columns that the verified
claims read are carried (name, source, version, the incremental-diff
comparison fields, link and group rows, and the `build_status` metadata
key).  SQLite specifics that matter are modelled explicitly, in
particular that a Python `sqlite3` connection leaves
`PRAGMA foreign_keys` OFF unless it is enabled (db.py `connection()`,
lines 172-186, never enables it), so `ON DELETE CASCADE` declared in the
DDL is not in effect.
-/

namespace Aurdex

/-! ## String normalisation helpers (db.py ad-hoc specifier parsing) -/

/-- Model of `re.split(r"[<>=]", s)[0]` on a character list: everything before the
first `<`, `>` or `=`. -/
def splitConstraint (cs : List Char) : List Char :=
  cs.takeWhile (fun c => c ≠ '<' ∧ c ≠ '>' ∧ c ≠ '=')

/-- Python `str.strip()` on a character list. -/
def trimChars (cs : List Char) : List Char :=
  ((cs.dropWhile Char.isWhitespace).reverse.dropWhile Char.isWhitespace).reverse

/-- Model of `s.split(":", 1)[0]` on a character list: everything before the first
colon. -/
def splitColon (cs : List Char) : List Char :=
  cs.takeWhile (fun c => c ≠ ':')

/-- Model of `re.split(r"[<>=]", s)[0].strip().split(":", 1)[0]` — the dependency
specifier normalisation used throughout db.py. -/
def baseToken (s : String) : String :=
  ⟨splitColon (trimChars (splitConstraint s.data))⟩

/-- Model of `version.split("-")[0].split(":")[-1]` — the version cleaning used for
the self-provide entry in `_prepare_link_data` (db.py 905). -/
def cleanVersion (v : String) : String :=
  ((⟨v.data.takeWhile (fun c => c ≠ '-')⟩ : String).splitOn ":").getLastD ""

/-- SQL `target LIKE base || '=%'`, modelled as a (case-sensitive) prefix
match on the underlying characters. -/
def likeEq (base target : String) : Prop :=
  (base.data ++ ['=']) <+: target.data

instance (base target : String) : Decidable (likeEq base target) :=
  inferInstanceAs (Decidable ((base.data ++ ['=']) <+: target.data))

/-- Deduplication keeping the first occurrence; model of building a Python
`set` from a list (set semantics: membership, no duplicates). -/
def dedupFirst (l : List String) : List String :=
  l.foldl (fun acc x => if x ∈ acc then acc else acc ++ [x]) []

/-- Python `set.add` / appending a member if absent. -/
def insertIfAbsent (x : String) (l : List String) : List String :=
  if x ∈ l then l else l ++ [x]

/-! ## Data model: the four tables (db.py DDL, lines 40-103) -/

/-- A row of the `links` table. -/
structure Link where
  name : String
  source : String
  linkType : String
  target : String
deriving DecidableEq, Repr

/-- A row of the `package_groups` table. -/
structure GroupRow where
  name : String
  source : String
  groupname : String
deriving DecidableEq, Repr

/-- A row of the `packages` table, restricted to the columns read by the
claims under verification: the `(name, source)` primary key, the version,
and the five fields compared by the incremental AUR diff
(`last_modified`, `maintainer`, `out_of_date`, `num_votes`, and the
`CoMaintainers` entry of the metadata JSON blob). -/
structure PackageRow where
  name : String
  source : String
  version : Option String
  maintainer : Option String
  lastModified : Option Nat
  outOfDate : Option Nat
  numVotes : Option Nat
  coMaintainers : List String
deriving DecidableEq, Repr

/-- The store: the three data tables plus the `build_status` key of
`db_metadata` (`none` = no row). -/
structure DbState where
  packages : List PackageRow
  links : List Link
  groups : List GroupRow
  buildStatus : Option String
deriving DecidableEq, Repr

def emptyDb : DbState := ⟨[], [], [], none⟩

/-- Python's `sqlite3` module leaves `PRAGMA foreign_keys` OFF unless the
application enables it, and `PackageDB.connection()` (db.py 172-186) never
issues that pragma; therefore the `ON DELETE CASCADE` clauses of the DDL
are not enforced on any connection the program opens. -/
def foreignKeysEnabled : Bool := false

/-- `DELETE FROM packages WHERE name = ? AND source = ?`.  Rows of
`links` / `package_groups` cascade only when foreign-key enforcement is
on, which it never is for this program's connections. -/
def deletePackage (st : DbState) (nm src : String) : DbState :=
  let st' := { st with
    packages := st.packages.filter (fun p => ¬(p.name = nm ∧ p.source = src)) }
  if foreignKeysEnabled then
    { st' with
      links := st'.links.filter (fun l => ¬(l.name = nm ∧ l.source = src)),
      groups := st'.groups.filter (fun g => ¬(g.name = nm ∧ g.source = src)) }
  else st'

/-- `DELETE FROM packages WHERE name = ? AND version = ? AND source = ?`
(incremental repo update, db.py 559-562); same cascade caveat. -/
def deletePackageTriple (st : DbState) (nm ver src : String) : DbState :=
  let st' := { st with
    packages := st.packages.filter
      (fun p => ¬(p.name = nm ∧ p.version.getD "" = ver ∧ p.source = src)) }
  if foreignKeysEnabled then
    { st' with
      links := st'.links.filter (fun l => ¬(l.name = nm ∧ l.source = src)),
      groups := st'.groups.filter (fun g => ¬(g.name = nm ∧ g.source = src)) }
  else st'

/-- Upsert of one `packages` row keyed on `(name, source)`
(`INSERT ... ON CONFLICT(name, source) DO UPDATE SET ...`); on the
modelled columns both the AUR and the repo variant overwrite every field
with the excluded row's value. -/
def upsertRow (rows : List PackageRow) (r : PackageRow) : List PackageRow :=
  if rows.any (fun p => p.name = r.name ∧ p.source = r.source) then
    rows.map (fun p => if p.name = r.name ∧ p.source = r.source then r else p)
  else rows ++ [r]

/-! ## Link / group preparation (db.py `_prepare_link_data`,
`_prepare_group_data`, 893-925) -/

/-- Links produced for one link field of a record: `None` contributes
nothing; otherwise the items are a Python set (deduplicated), extended
with the self-provide entry `name=cleaned_version` when the field is
`Provides`, the source is not `aur` and the version string is truthy. -/
def fieldLinks (name versionStr source field : String)
    (itemsVal : Option (List String)) : List Link :=
  match itemsVal with
  | none => []
  | some iv =>
    let items := dedupFirst iv
    let items :=
      if field = "Provides" ∧ source ≠ "aur" ∧ versionStr ≠ "" then
        insertIfAbsent (name ++ "=" ++ cleanVersion versionStr) items
      else items
    items.map (fun t => { name := name, source := source, linkType := field, target := t })

/-- Model of `_prepare_link_data`: concatenation of the per-field links over the
record's `LINK_FIELDS`. -/
def prepareLinkData (name versionStr source : String)
    (fields : List (String × Option (List String))) : List Link :=
  (fields.map (fun fv => fieldLinks name versionStr source fv.1 fv.2)).flatten

/-- Model of `_prepare_group_data`: one `package_groups` row per group name. -/
def prepareGroupData (name source : String) (grpList : Option (List String)) :
    List GroupRow :=
  match grpList with
  | none => []
  | some gs => gs.map (fun g => { name := name, source := source, groupname := g })

/-! ## Records of the upstream (AUR) feed and of the system package
manager -/

/-- One record of the decoded AUR feed (the fields db.py reads).  Link
fields are `Option` because `_prepare_link_data` skips a field whose
value is absent (`None`). -/
structure AurRecord where
  name : String
  version : Option String
  maintainer : Option String
  lastModified : Option Nat
  outOfDate : Option Nat
  numVotes : Option Nat
  coMaintainers : List String
  depends : Option (List String) := none
  optDepends : Option (List String) := none
  makeDepends : Option (List String) := none
  checkDepends : Option (List String) := none
  provides : Option (List String) := none
  replaces : Option (List String) := none
  conflicts : Option (List String) := none
  groups : Option (List String) := none
deriving DecidableEq, Repr

/-- The ordered `LINK_FIELDS` of an AUR record as passed to
`_prepare_link_data`. -/
def aurLinkFields (r : AurRecord) : List (String × Option (List String)) :=
  [("Depends", r.depends), ("OptDepends", r.optDepends),
   ("MakeDepends", r.makeDepends), ("CheckDepends", r.checkDepends),
   ("Provides", r.provides), ("Replaces", r.replaces),
   ("Conflicts", r.conflicts)]

/-- Model of `str(rec.get("Version"))`: Python renders a missing version as the
truthy string `"None"`. -/
def aurVersionStr (r : AurRecord) : String := r.version.getD "None"

/-- The `packages` row upserted for an AUR record
(`_prepare_package_row_data` / `_insert_package_row`, modelled columns). -/
def aurRowOfRecord (r : AurRecord) : PackageRow :=
  { name := r.name, source := "aur", version := r.version,
    maintainer := r.maintainer, lastModified := r.lastModified,
    outOfDate := r.outOfDate, numVotes := r.numVotes,
    coMaintainers := r.coMaintainers }

/-- One package visible through pyalpm (a sync-repo or local package).
The per-package link lists are always present on a pyalpm package, hence
not optional. -/
structure RepoPkg where
  name : String
  version : String
  depends : List String := []
  optDepends : List String := []
  makeDepends : List String := []
  checkDepends : List String := []
  provides : List String := []
  replaces : List String := []
  conflicts : List String := []
  groups : List String := []
deriving DecidableEq, Repr

/-- The link-field dictionary `_insert_repo_pkg` builds for
`_prepare_link_data` (db.py 832-845): every key present. -/
def repoLinkFields (p : RepoPkg) : List (String × Option (List String)) :=
  [("Depends", some p.depends), ("OptDepends", some p.optDepends),
   ("MakeDepends", some p.makeDepends), ("CheckDepends", some p.checkDepends),
   ("Provides", some p.provides), ("Replaces", some p.replaces),
   ("Conflicts", some p.conflicts)]

/-- The `packages` row upserted for a repo package
(`_prepare_repo_pkg_data`, modelled columns; the repo insert stores the
packager in the `maintainer` column and the build date in
`last_modified`, neither of which the claims read, so they are left
empty here). -/
def repoRowOfPkg (p : RepoPkg) (source : String) : PackageRow :=
  { name := p.name, source := source, version := some p.version,
    maintainer := none, lastModified := none, outOfDate := none,
    numVotes := none, coMaintainers := [] }

/-! ## `_insert_repo_pkg` (db.py 823-891): delete-then-insert replacement
of links and groups, plus the packages upsert -/

/-- Model of `_insert_repo_pkg(cur, data)`: prepares row/link/group data, deletes
the links and groups of every affected `(name, source)`, upserts the
package rows, then bulk-inserts the fresh links and groups. -/
def insertRepoPkg (st : DbState) (data : List (RepoPkg × String)) : DbState :=
  let linkData := (data.map (fun ps =>
    prepareLinkData ps.1.name ps.1.version ps.2 (repoLinkFields ps.1))).flatten
  let groupData := (data.map (fun ps =>
    prepareGroupData ps.1.name ps.2 (some ps.1.groups))).flatten
  let keys := data.map (fun ps => (ps.1.name, ps.2))
  let st := { st with
    links := st.links.filter (fun l => ¬((l.name, l.source) ∈ keys)),
    groups := st.groups.filter (fun g => ¬((g.name, g.source) ∈ keys)) }
  let st := { st with
    packages := data.foldl
      (fun rows (ps : RepoPkg × String) => upsertRow rows (repoRowOfPkg ps.1 ps.2))
      st.packages }
  { st with links := st.links ++ linkData, groups := st.groups ++ groupData }

/-! ## `_ingest_aur_full` (db.py 602-689) -/

/-- The five-field change test of the incremental AUR diff (db.py
637-656): a feed record is re-ingested iff no stored `aur` row of that
name exists, or the modification timestamp, maintainer, out-of-date
marker, vote count or (sorted) co-maintainer list differs. -/
def needsUpdate (dbPackages : List PackageRow) (r : AurRecord) : Bool :=
  match dbPackages.find? (fun p => p.name = r.name) with
  | none => true
  | some p =>
    r.lastModified.getD 0 ≠ p.lastModified.getD 0 ∨
    r.maintainer ≠ p.maintainer ∨
    r.outOfDate ≠ p.outOfDate ∨
    r.numVotes.getD 0 ≠ p.numVotes.getD 0 ∨
    p.coMaintainers.insertionSort (· ≤ ·) ≠ r.coMaintainers.insertionSort (· ≤ ·)

/-- Feed records with a truthy `Name` (db.py 619, 633-635). -/
def namedRecords (records : List AurRecord) : List AurRecord :=
  records.filter (fun r => r.name ≠ "")

/-- The records `_ingest_aur_full` re-ingests, judged against the stored
`aur` rows of `st`. -/
def aurPackagesToUpdate (st : DbState) (records : List AurRecord) : List AurRecord :=
  (namedRecords records).filter
    (needsUpdate (st.packages.filter (fun p => p.source = "aur")))

/-- All writes of `_ingest_aur_full` up to (but excluding) the final
`build_status = 'complete'` update: set the status to `pending`, delete
stored AUR packages whose name left the feed, then upsert the changed
records' rows and append — without any prior delete — their links and
groups. -/
def ingestAurWrites (records : List AurRecord) (st : DbState) : DbState :=
  let st := { st with buildStatus := some "pending" }
  let dbPackages := st.packages.filter (fun p => p.source = "aur")
  let feedNames := (namedRecords records).map (fun r => r.name)
  let toDelete := dbPackages.filter (fun p => ¬(p.name ∈ feedNames))
  let st := toDelete.foldl (fun s p => deletePackage s p.name "aur") st
  let toUpdate := (namedRecords records).filter (needsUpdate dbPackages)
  let st := { st with
    packages := toUpdate.foldl (fun rows r => upsertRow rows (aurRowOfRecord r)) st.packages }
  let newLinks := (toUpdate.map (fun r =>
    prepareLinkData r.name (aurVersionStr r) "aur" (aurLinkFields r))).flatten
  let newGroups := (toUpdate.map (fun r =>
    prepareGroupData r.name "aur" r.groups)).flatten
  { st with links := st.links ++ newLinks, groups := st.groups ++ newGroups }

/-- Model of `UPDATE db_metadata SET value = 'complete' WHERE key = 'build_status'`
(db.py 680-682; the row exists, `_ingest_aur_full` set it to `pending`). -/
def setStatusComplete (st : DbState) : DbState :=
  { st with buildStatus := some "complete" }

/-- Model of `_ingest_aur_full(conn)`: the writes, the status flip to `complete`,
and the return value — the number of re-ingested records. -/
def ingestAurFull (st : DbState) (records : List AurRecord) : DbState × Nat :=
  (setStatusComplete (ingestAurWrites records st),
   (aurPackagesToUpdate st records).length)

/-! ## Repo ingest paths (db.py `_ingest_repo` 720-737,
`_update_repo_incrementally` 529-577) -/

/-- Model of `_ingest_repo`: insert every currently visible system package. -/
def ingestRepo (st : DbState) (repoData : List (RepoPkg × String)) : DbState :=
  if repoData = [] then st else insertRepoPkg st repoData

/-- Model of `_update_repo_incrementally`: diff the current `(name, version,
source)` triples against the stored non-`aur` triples, delete the
vanished triples (no cascade), and upsert the new ones with full
link/group replacement. -/
def updateRepoIncrementally (repoData : List (RepoPkg × String)) (st : DbState) : DbState :=
  if repoData = [] then st
  else
    let current := repoData.map (fun ps => (ps.1.name, ps.1.version, ps.2))
    let stored := (st.packages.filter (fun p => p.source ≠ "aur")).map
      (fun p => (p.name, p.version.getD "", p.source))
    let toDelete := stored.filter (fun t => ¬(t ∈ current))
    let st := toDelete.foldl (fun s t => deletePackageTriple s t.1 t.2.1 t.2.2) st
    let toAdd := repoData.filter
      (fun ps => ¬((ps.1.name, ps.1.version, ps.2) ∈ stored))
    if toAdd = [] then st else insertRepoPkg st toAdd

/-! ## The two sync entry points (db.py `_rebuild` 587-600,
`_update_database` 579-585, `rebuild` 480-500) -/

/-- Model of `rebuild(full=True)` / `_rebuild`: drop and recreate the schema, run
the full AUR ingest, run the repo ingest, and return the AUR ingest's
count. -/
def fullRebuildRun (records : List AurRecord) (repoData : List (RepoPkg × String)) :
    DbState × Nat :=
  let p := ingestAurFull emptyDb records
  (ingestRepo p.1 repoData, p.2)

/-- Model of `rebuild(full=False)` / `_update_database`: incremental AUR ingest,
incremental repo update, return the AUR ingest's count. -/
def updateDatabaseRun (st : DbState) (records : List AurRecord)
    (repoData : List (RepoPkg × String)) : DbState × Nat :=
  let p := ingestAurFull st records
  (updateRepoIncrementally repoData p.1, p.2)

/-! ## Transaction/commit structure of a sync pass

A pass is a sequence of write batches and commits on one connection.
Writes mutate the in-memory (uncommitted) state; a commit publishes it to
disk.  A crash at any point leaves the disk at the last commit. -/

/-- One step of a pass: a write batch (a state transformer, capturing
read-compute-write against the connection's own uncommitted state) or a
commit. -/
inductive Step where
  | write (f : DbState → DbState)
  | commit

/-- Run steps over (memory, disk). -/
def runSteps : List Step → DbState × DbState → DbState × DbState
  | [], s => s
  | Step.write f :: rest, s => runSteps rest (f s.1, s.2)
  | Step.commit :: rest, s => runSteps rest (s.1, s.1)

/-- The on-disk state after the first `k` steps starting from `init`
both in memory and on disk — i.e. what survives a crash after step `k`. -/
def diskAfter (steps : List Step) (init : DbState) (k : Nat) : DbState :=
  (runSteps (steps.take k) (init, init)).2

/-- The step sequence of `rebuild(full=True)` (db.py 587-600): the schema
drop/recreate (`executescript` runs the DDL, whose script ends in
`COMMIT`), then `_ingest_aur_full` — its writes, its
`build_status = 'complete'` update, and its own `conn.commit()` (db.py
683) — then `_ingest_repo`'s writes, then `_rebuild`'s final commit. -/
def fullRebuildSteps (records : List AurRecord)
    (repoData : List (RepoPkg × String)) : List Step :=
  [Step.write (fun _ => emptyDb), Step.commit,
   Step.write (ingestAurWrites records), Step.write setStatusComplete, Step.commit,
   Step.write (fun st => ingestRepo st repoData), Step.commit]

/-- The step sequence of `rebuild(full=False)` (db.py 579-585):
`_ingest_aur_full` (which commits with `build_status = 'complete'`),
then `_update_repo_incrementally`, then `_update_database`'s commit. -/
def updateDatabaseSteps (records : List AurRecord)
    (repoData : List (RepoPkg × String)) : List Step :=
  [Step.write (ingestAurWrites records), Step.write setStatusComplete, Step.commit,
   Step.write (updateRepoIncrementally repoData), Step.commit]

/-! ## Query functions -/

/-- Model of `package_info(name, source)` restricted to what the resolver reads:
row selection (db.py 257-271).  Prefer the `aur` row; an explicit
`source='aur'` with no `aur` row yields `None`; an explicit other source
falls back to the first row of the name when absent. -/
def packageInfoSrc (st : DbState) (name : String) (source : Option String) :
    Option PackageRow :=
  let rows := st.packages.filter (fun p => p.name = name)
  if rows = [] then none
  else
    match source with
    | some "aur" => rows.find? (fun p => p.source = "aur")
    | some s =>
      match rows.find? (fun p => p.source = s) with
      | some r => some r
      | none =>
        match rows.find? (fun p => p.source = "aur") with
        | some r => some r
        | none => rows.head?
    | none =>
      match rows.find? (fun p => p.source = "aur") with
      | some r => some r
      | none => rows.head?

/-- Model of `search_by_provides(token)` (db.py 229-235): normalise the token,
then return `(name, source)` of every `Provides` link whose target is
the bare token or starts with `token=`. -/
def searchByProvides (st : DbState) (token : String) : List (String × String) :=
  let base := baseToken token
  (st.links.filter (fun l =>
    l.linkType = "Provides" ∧ (l.target = base ∨ likeEq base l.target))).map
    (fun l => (l.name, l.source))

/-- The four dependency link types queried by `get_dependants` and
`search_by_depends`. -/
def depLinkTypes : List String :=
  ["Depends", "CheckDepends", "MakeDepends", "OptDepends"]

/-- One entry of a `get_dependants` result list. -/
structure DependantEntry where
  name : String
  source : String
  linkType : String
deriving DecidableEq, Repr

/-- Model of `get_dependants(package_name, provides)` (db.py 1048-1073).  The SQL
matches `l.target IN (package_name, *provides)` — an exact comparison on
the raw target — joined against `packages`; the Python post-pass
normalises each returned row's target and appends the row under that key
when it is one of the queried names; keys with no entries are dropped. -/
def getDependants (st : DbState) (packageName : String) (provides : List String) :
    List (String × List DependantEntry) :=
  let allProvides := packageName :: provides
  let rows := ((st.links.filter (fun l =>
      l.linkType ∈ depLinkTypes ∧ l.target ∈ allProvides)).map
    (fun l => (st.packages.filter (fun p => p.name = l.name ∧ p.source = l.source)).map
      (fun p => (l.target, DependantEntry.mk p.name p.source l.linkType)))).flatten
  let keys := dedupFirst allProvides
  (keys.map (fun k =>
    (k, rows.filterMap (fun te => if baseToken te.1 = k then some te.2 else none)))).filter
    (fun kv => kv.2 ≠ [])

/-! ## `get_enriched_dependencies` (db.py 933-1046)

The claims read only the identity and precedence class of each
candidate, so the full joined row is reduced to `(name, source,
resolution_type)`. -/

/-- One provider candidate: the joined package's identity plus the
precedence class under which it was gathered. -/
structure Candidate where
  name : String
  source : String
  resolutionType : String
deriving DecidableEq, Repr

/-- SQL `l.target = dep OR l.target LIKE dep || '=%'`. -/
def targetMatches (dep target : String) : Prop :=
  target = dep ∨ likeEq dep target

instance (dep target : String) : Decidable (targetMatches dep target) :=
  inferInstanceAs (Decidable (target = dep ∨ likeEq dep target))

/-- Model of `SELECT p.* FROM links l JOIN packages p ON p.name = l.name AND
p.source = l.source WHERE l.link_type = lt AND (l.target = dep OR
l.target LIKE dep || '=%')`, reduced to the joined identities. -/
def joinLinkPackages (st : DbState) (lt dep : String) : List (String × String) :=
  ((st.links.filter (fun l => l.linkType = lt ∧ targetMatches dep l.target)).map
    (fun l => (st.packages.filter (fun p => p.name = l.name ∧ p.source = l.source)).map
      (fun p => (p.name, p.source)))).flatten

/-- Append rows of one precedence class, skipping identities already
gathered for this dependency name (the `already_added` set). -/
def addCandidates (acc : List Candidate) (rt : String)
    (rows : List (String × String)) : List Candidate :=
  rows.foldl (fun acc ns =>
    if acc.any (fun c => c.name = ns.1 ∧ c.source = ns.2) then acc
    else acc ++ [⟨ns.1, ns.2, rt⟩]) acc

/-- The candidate gathering of `get_enriched_dependencies` for one
dependency name: replacers, then providers, then direct name matches,
first class wins on duplicates (db.py 955-1003). -/
def gatherCandidates (st : DbState) (dep : String) : List Candidate :=
  let a := addCandidates [] "replaces" (joinLinkPackages st "Replaces" dep)
  let a := addCandidates a "provides" (joinLinkPackages st "Provides" dep)
  addCandidates a "direct"
    ((st.packages.filter (fun p => p.name = dep)).map (fun p => (p.name, p.source)))

/-- Model of `type_order` of the Python `sort_key` (db.py 1027-1033). -/
def typeOrder (rt : String) : Nat :=
  if rt = "replaces" then 0 else if rt = "provides" then 1
  else if rt = "direct" then 2 else 99

/-- The Python `sort_key(p) = (p["source"] == "aur", type_order, p["name"])`,
as a lexicographically ordered tuple. -/
def candKey (c : Candidate) : Bool ×ₗ (Nat ×ₗ String) :=
  toLex (c.source = "aur", toLex (typeOrder c.resolutionType, c.name))

/-- The total preorder the candidate list is sorted by. -/
def candLE (a b : Candidate) : Prop := candKey a ≤ candKey b

instance : DecidableRel candLE := fun a b =>
  inferInstanceAs (Decidable (candKey a ≤ candKey b))

instance : IsTotal Candidate candLE := ⟨fun a b => le_total (candKey a) (candKey b)⟩

instance : IsTrans Candidate candLE := ⟨fun _ _ _ h h' => le_trans h h'⟩

/-- The provider list `get_enriched_dependencies` attaches to one
dependency spec (db.py 1011-1035): if any repo-sourced `provides`
candidate exists, drop the `aur`-sourced `replaces` candidates; then
sort by `sort_key` (Python's stable sort, modelled by stable insertion
sort over the same total preorder). -/
def enrichedProviders (st : DbState) (dep : String) : List Candidate :=
  let candidates := gatherCandidates st dep
  let hasRepoProvider := candidates.any
    (fun c => c.resolutionType = "provides" ∧ c.source ≠ "aur")
  let valid :=
    if hasRepoProvider then
      candidates.filter (fun c => ¬(c.resolutionType = "replaces" ∧ c.source = "aur"))
    else candidates
  valid.insertionSort candLE

/-! ## Dependency resolver (db.py `DependencyResolver`, 1086-1313) -/

/-- Model of `s.split(":", 1)[0]` on a string. -/
def colonHead (s : String) : String := ⟨splitColon s.data⟩

/-- Model of `get_package_dependencies(pkg_name)` (db.py 188-202): the `Depends`
link targets of the name under the `aur` source or under any non-`aur`
source that carries a package row of that name, AUR links first
(`ORDER BY l.source != 'aur'`), each target normalised to a bare name. -/
def getPackageDependencies (st : DbState) (pkg : String) : List String :=
  let nonAurSources := (st.packages.filter
    (fun p => p.name = pkg ∧ p.source ≠ "aur")).map (fun p => p.source)
  let elig := st.links.filter (fun l =>
    l.name = pkg ∧ l.linkType = "Depends" ∧
    (l.source = "aur" ∨ l.source ∈ nonAurSources))
  ((elig.filter (fun l => l.source = "aur")) ++
   (elig.filter (fun l => l.source ≠ "aur"))).map (fun l => baseToken l.target)

/-- The read-only system snapshot the resolver is constructed with:
the store, the installed-name → version map, and the provided-name →
installed-provider map (last binding wins, as in the Python dict). -/
structure ResolveCtx where
  db : DbState
  installed : List (String × String)
  installedProvides : List (String × String)

def installedNames (ctx : ResolveCtx) : List String :=
  ctx.installed.map (fun kv => kv.1)

def providedNames (ctx : ResolveCtx) : List String :=
  ctx.installedProvides.map (fun kv => kv.1)

/-- Model of `self.installed_provides[dep]`: Python dict lookup, last binding
wins. -/
def lookupProvider (ctx : ResolveCtx) (dep : String) : String :=
  ((ctx.installedProvides.reverse.find? (fun kv => kv.1 = dep)).map
    (fun kv => kv.2)).getD ""

/-- An entry appended to `order` on post-order exit (db.py 1244-1250). -/
structure OrderEntry where
  name : String
  source : String
  version : Option String
deriving DecidableEq, Repr

/-- The mutable traversal state shared by the DFS (visiting set, visited
set, satisfied set, post-order list, recorded cycles). -/
structure ResolverState where
  visiting : List String
  visited : List String
  satisfied : List String
  order : List OrderEntry
  cycles : List (List String)
deriving DecidableEq, Repr

/-- The cycle recorded when `dep` is found in the visiting set:
`path[path.index(dep):]`, with the (unreachable in practice)
`ValueError` fallback `path + [dep]` (db.py 1225-1231, 1278-1284). -/
def cycleSlice (path : List String) (dep : String) : List String :=
  if dep ∈ path then path.drop (path.indexOf dep) else path ++ [dep]

/-- The body of the per-dependency loop shared by `_dfs_deep`
(`deep = true`, db.py 1190-1236) and `_dfs_shallow` (`deep = false`,
db.py 1265-1289).  `recurse` is the recursive continuation (`_dfs_deep`
resp. `_dfs_shallow` with one fuel unit consumed); `path` is the current
DFS stack including the node being expanded. -/
def processDep (deep : Bool) (ctx : ResolveCtx)
    (recurse : String → List String → ResolverState → ResolverState)
    (path : List String) (st : ResolverState) (depFull : String) : ResolverState :=
  let dep := colonHead depFull
  if dep ∈ installedNames ctx then
    if deep then
      if dep ∈ st.satisfied then st
      else
        let st := { st with satisfied := st.satisfied ++ [dep] }
        if dep ∈ st.visited then st else recurse dep path st
    else { st with satisfied := insertIfAbsent dep st.satisfied }
  else if dep ∈ providedNames ctx then
    let provider := lookupProvider ctx dep
    if deep then
      if provider ∈ st.satisfied then st
      else
        let st := { st with satisfied := st.satisfied ++ [provider] }
        if provider ∈ st.visited then st else recurse provider path st
    else { st with satisfied := insertIfAbsent provider st.satisfied }
  else if dep ∈ st.visiting then
    { st with cycles := st.cycles ++ [cycleSlice path dep] }
  else if dep ∈ st.visited then st
  else recurse dep path st

/-- Model of `_dfs_deep` / `_dfs_shallow`, fuel-indexed (the Python recursion is
unbounded; every claim is settled at a fuel exceeding the number of
recursive calls the input can trigger).  Enter: add to visiting, extend
the path; process each dependency; exit: remove from visiting and, when
not yet visited, mark visited and append the post-order entry when
`package_info` finds the name. -/
def dfs (deep : Bool) (ctx : ResolveCtx) :
    Nat → String → List String → ResolverState → ResolverState
  | 0, _, _, st => st
  | fuel + 1, pkg, path, st =>
    let st1 := { st with visiting := insertIfAbsent pkg st.visiting }
    let path' := path ++ [pkg]
    let st2 := (getPackageDependencies ctx.db pkg).foldl
      (processDep deep ctx (fun d p s => dfs deep ctx fuel d p s) path') st1
    let st3 := { st2 with visiting := st2.visiting.filter (fun x => x ≠ pkg) }
    if pkg ∈ st3.visited then st3
    else
      let st4 := { st3 with visited := st3.visited ++ [pkg] }
      match packageInfoSrc ctx.db pkg none with
      | some r => { st4 with order := st4.order ++ [⟨pkg, r.source, r.version⟩] }
      | none => st4

/-- Fuel that dominates any traversal of the modelled inputs. -/
def fuelFor (ctx : ResolveCtx) (names : List String) : Nat :=
  2 * (ctx.db.packages.length + ctx.db.links.length +
       ctx.installed.length + ctx.installedProvides.length + names.length) + 2

/-- The request-resolution loop (db.py 1102-1111 / 1144-1153): each
requested name, stripped at the first colon, must resolve through
`package_info`; the first failure aborts with `none`. -/
def resolveNames (st : DbState) : List String → Option (List String)
  | [] => some []
  | n :: rest =>
    match packageInfoSrc st (colonHead n) none with
    | none => none
    | some r => (resolveNames st rest).map (fun l => r.name :: l)

/-- The result dictionary of `resolve_dependency_tree_deep` /
`_shallow`. -/
structure ResolveResult where
  order : List OrderEntry
  cycles : List (List String)
  installed : List String
  satisfied : List String
deriving DecidableEq, Repr

/-- The explicit empty result returned when a requested name cannot be
resolved (db.py 1111 / 1153). -/
def emptyResult : ResolveResult := ⟨[], [], [], []⟩

/-- Model of `resolve_dependency_tree_deep` (`deep = true`, db.py 1095-1133) and
`resolve_dependency_tree_shallow` (`deep = false`, db.py 1135-1175):
resolve the requested names (aborting to `emptyResult` on any failure),
seed the satisfied set per name, run the DFS per unvisited name, then
re-look up each order entry and drop entries whose name is installed. -/
def resolveDependencyTree (deep : Bool) (ctx : ResolveCtx)
    (packageNames : List String) : ResolveResult :=
  match resolveNames ctx.db packageNames with
  | none => emptyResult
  | some pkgs =>
    let st := pkgs.foldl (fun (st : ResolverState) name =>
      let st :=
        if name ∈ installedNames ctx then
          { st with satisfied := insertIfAbsent name st.satisfied }
        else if name ∈ providedNames ctx then
          { st with satisfied := insertIfAbsent (lookupProvider ctx name) st.satisfied }
        else st
      if name ∈ st.visited then st
      else dfs deep ctx (fuelFor ctx packageNames) name [] st)
      ⟨[], [], [], [], []⟩
    let finalOrder := st.order.foldl (fun acc e =>
      match packageInfoSrc ctx.db e.name (some e.source) with
      | some r =>
        if r.name ∈ installedNames ctx then acc
        else acc ++ [OrderEntry.mk r.name r.source r.version]
      | none => acc) []
    ⟨finalOrder, st.cycles, installedNames ctx, st.satisfied⟩

/-! ## Concrete instances used to settle the claims -/

/-- An AUR feed record for package `p` with one runtime dependency and
one group. -/
def recP : AurRecord :=
  { name := "p", version := some "1", maintainer := some "m",
    lastModified := some 1, outOfDate := none, numVotes := some 3,
    coMaintainers := [], depends := some ["x"], groups := some ["g"] }

/-- The store after a first ingest of `recP` into an empty store. -/
def c1Before : DbState := (ingestAurFull emptyDb [recP]).1

/-- The store after a second AUR ingest whose feed no longer contains
`p`: the incremental diff deletes the `packages` row. -/
def c1After : DbState := (ingestAurFull c1Before []).1

/-- The same feed record with a changed modification timestamp, so the
incremental diff re-ingests it. -/
def recPTouched : AurRecord := { recP with lastModified := some 2 }

/-- The store after re-ingesting the changed record on top of the first
ingest. -/
def c2After : DbState := (ingestAurFull ((ingestAurFull emptyDb [recP]).1) [recPTouched]).1

/-- A system-repository package used by the rebuild pipeline instances. -/
def rpP : RepoPkg := { name := "P", version := "2:1.5-3", provides := ["virt"] }

/-- A second system-repository package. -/
def rpQ : RepoPkg := { name := "Q", version := "1" }

/-- The step sequence of a full rebuild over one AUR record and one repo
package. -/
def c5Steps : List Step := fullRebuildSteps [recP] [(rpP, "core")]

/-- The step sequence of an incremental update over the same inputs,
started from an empty store. -/
def c5UpdSteps : List Step := updateDatabaseSteps [recP] [(rpP, "core")]

/-- A full rebuild over one AUR record and two repo packages: three
packages are inserted, and the pipeline returns its count. -/
def c9Run : DbState × Nat := fullRebuildRun [recP] [(rpP, "core"), (rpQ, "core")]

/-- A helper row shared by the resolver instances. -/
def mkAurRow (n : String) : PackageRow :=
  { name := n, source := "aur", version := some "1", maintainer := none,
    lastModified := none, outOfDate := none, numVotes := none,
    coMaintainers := [] }

/-- The dependency cycle instance of C3: stored packages `A`, `B`, `C`
with `Depends` edges `A → B → C → A`. -/
def cycleDb : DbState :=
  { packages := [mkAurRow "A", mkAurRow "B", mkAurRow "C"],
    links := [⟨"A", "aur", "Depends", "B"⟩, ⟨"B", "aur", "Depends", "C"⟩,
              ⟨"C", "aur", "Depends", "A"⟩],
    groups := [], buildStatus := none }

/-- The resolver context of C3: the cycle store, nothing installed. -/
def cycleCtx : ResolveCtx := ⟨cycleDb, [], []⟩

/-- The store of C4: `A → B` with `B` stored under the system repository
`core`, the real edge `B → C`, and `C` not installed. -/
def c4Db : DbState :=
  { packages := [mkAurRow "A", { mkAurRow "B" with source := "core" }, mkAurRow "C"],
    links := [⟨"A", "aur", "Depends", "B"⟩, ⟨"B", "core", "Depends", "C"⟩],
    groups := [], buildStatus := none }

/-- The resolver context of C4: only `B` is installed. -/
def c4Ctx : ResolveCtx := ⟨c4Db, [("B", "1")], []⟩

/-- A resolver state whose visiting set and path correspond to a DFS
standing at `B` below `A`; used to witness the cycle-recording step. -/
def c3StateW : ResolverState := ⟨["A", "B"], [], [], [], []⟩

/-- A resolver state in which `B` is already satisfied; used to witness
that deep traversal does not re-recurse into a satisfied name. -/
def c4StateW : ResolverState := ⟨["A"], [], ["B"], [], []⟩

/-- The store of C7: the virtual name `V` is replaced by the upstream
package `U` and provided by the repository package `R`. -/
def c7Db : DbState :=
  { packages := [mkAurRow "U", { mkAurRow "R" with source := "extra" }],
    links := [⟨"U", "aur", "Replaces", "V"⟩, ⟨"R", "extra", "Provides", "V"⟩],
    groups := [], buildStatus := none }

/-- A resolver context over an empty store; the request `ghost` cannot
be resolved there. -/
def ghostCtx : ResolveCtx := ⟨emptyDb, [], []⟩

/-- The repo package witnessing the self-provide invariant. -/
def rpW : RepoPkg := { name := "W", version := "2:1.5-3", provides := ["virt"] }

/-- The store of C10: `X` depends on the version-qualified specifier
`P>=1.0`, and `P` exists. -/
def c10Db : DbState :=
  { packages := [mkAurRow "X", mkAurRow "P"],
    links := [⟨"X", "aur", "Depends", "P>=1.0"⟩],
    groups := [], buildStatus := none }

/-- The store of C10 with the bare target `P` instead. -/
def c10DbExact : DbState :=
  { c10Db with links := [⟨"X", "aur", "Depends", "P"⟩] }

/-- Modelled from the claim's words for C10 (not from the source): the
dependants query as the claim describes it, with every link target
normalised by `baseToken` before it is matched against the queried
names. -/
def dependantsNormalizedSpec (st : DbState) (packageName : String)
    (provides : List String) : List (String × List DependantEntry) :=
  let allProvides := packageName :: provides
  let rows := ((st.links.filter (fun l =>
      l.linkType ∈ depLinkTypes ∧ baseToken l.target ∈ allProvides)).map
    (fun l => (st.packages.filter (fun p => p.name = l.name ∧ p.source = l.source)).map
      (fun p => (l.target, DependantEntry.mk p.name p.source l.linkType)))).flatten
  let keys := dedupFirst allProvides
  (keys.map (fun k =>
    (k, rows.filterMap (fun te => if baseToken te.1 = k then some te.2 else none)))).filter
    (fun kv => kv.2 ≠ [])

/-! ## Theorems -/

/-- C1: the claim states that after a deleting sync operation commits,
zero `links` and `package_groups` rows reference the deleted package.
The code violates this: the DDL declares `ON DELETE CASCADE`, but
`PackageDB.connection()` never enables `PRAGMA foreign_keys`, which
Python's sqlite3 leaves off by default, so the cascade is inert.
Evaluating the code at the failing input: package `p` (one link, one
group row) is ingested, then a feed without `p` deletes its `packages`
row — both the link and the group row survive as orphans. -/
theorem c1_delete_leaves_orphans :
    c1After.packages = [] ∧
    c1After.links = [⟨"p", "aur", "Depends", "x"⟩] ∧
    c1After.groups = [⟨"p", "aur", "g"⟩] := by
  refine ⟨?_, ?_, ?_⟩ <;> decide

/-- C2: the claim states that a re-ingested record's links and groups
are replaced wholesale (delete-then-bulk-insert), leaving no duplicate
edges.  The repo-package path (`_insert_repo_pkg`) does delete first,
but `_ingest_aur_full` inserts the changed records' links and groups
without deleting the previous ones.  Evaluating the code at the failing
input: ingesting `p` and then re-ingesting it with a changed
modification timestamp leaves one `packages` row but two identical
`Depends` link rows and two identical group rows. -/
theorem c2_aur_reingest_duplicates_links :
    c2After.packages.length = 1 ∧
    c2After.links = [⟨"p", "aur", "Depends", "x"⟩, ⟨"p", "aur", "Depends", "x"⟩] ∧
    c2After.groups = [⟨"p", "aur", "g"⟩, ⟨"p", "aur", "g"⟩] ∧
    ¬ c2After.links.Nodup := by
  refine ⟨?_, ?_, ?_, ?_⟩ <;> decide

/-- C5: the claim states that `build_status` is never `"complete"`
until all writes of the pass — upstream ingest and system-package ingest
— have committed, so a partway failure leaves it not `"complete"`.
The code violates this: `_ingest_aur_full` updates the flag to
`"complete"` and commits (db.py 680-683) before `_ingest_repo` /
`_update_repo_incrementally` run.  Evaluating the code at the failing
input: interrupting the full rebuild after its AUR-phase commit (step 5
of 7) leaves the disk with `build_status = "complete"` although the
repo package of the pass is absent; the incremental update behaves the
same (step 3 of 5). -/
theorem c5_complete_committed_mid_pass :
    c5Steps.length = 7 ∧
    (diskAfter c5Steps emptyDb 5).buildStatus = some "complete" ∧
    (diskAfter c5Steps emptyDb 5).packages ≠ (diskAfter c5Steps emptyDb 7).packages ∧
    c5UpdSteps.length = 5 ∧
    (diskAfter c5UpdSteps emptyDb 3).buildStatus = some "complete" ∧
    (diskAfter c5UpdSteps emptyDb 3).packages ≠ (diskAfter c5UpdSteps emptyDb 5).packages := by
  refine ⟨?_, ?_, ?_, ?_, ?_, ?_⟩ <;> decide

/-- C9 counterexample: the claim states that a sync operation returns
the count of packages inserted or updated across both the upstream and
the system-package ingests.  A full rebuild from an empty store over one
AUR record and two repo packages inserts three `packages` rows but
returns 1 — only the AUR ingest's count (`_rebuild` returns `aur_count`,
db.py 597-600, discarding anything `_ingest_repo` wrote). -/
theorem c9_count_ignores_repo_ingest :
    c9Run.2 = 1 ∧
    c9Run.1.packages.map (fun p => (p.name, p.source)) =
      [("p", "aur"), ("P", "core"), ("Q", "core")] ∧
    emptyDb.packages = [] ∧ (1 : Nat) ≠ 3 := by
  refine ⟨?_, ?_, ?_, ?_⟩ <;> decide

/-- C9 amended: a sync operation (full rebuild or incremental update)
returns the count of upstream-feed (AUR) packages inserted or updated in
that pass; packages written by the system-package ingest are not
counted, and deleted packages are not counted.  The count equals the
number of feed records that are new or changed against the stored
upstream rows, is unchanged by whatever the repo ingest receives, and a
pass whose feed only causes deletions returns 0. -/
theorem c9_amended_count_is_aur_only (st : DbState) (records : List AurRecord)
    (repoA repoB : List (RepoPkg × String)) :
    (updateDatabaseRun st records repoA).2 = (aurPackagesToUpdate st records).length ∧
    (updateDatabaseRun st records repoA).2 = (updateDatabaseRun st records repoB).2 ∧
    (fullRebuildRun records repoA).2 = (aurPackagesToUpdate emptyDb records).length ∧
    (updateDatabaseRun st [] repoA).2 = 0 :=
  ⟨rfl, rfl, rfl, rfl⟩

/-- C3: in both shallow and deep traversal, a dependency found in the
visiting set records a cycle — the slice of the current path from that
name's first occurrence through the current node (the recorded list
closes back to the start implicitly) — and the traversal continues
without recursing into it: the step's result is independent of the
recursive continuation and changes nothing but the cycles list.  For
the edges `A → B → C → A` with nothing installed, resolving `A` (deep
and shallow) yields the single cycle `[A, B, C]` — a rotation of
`[A, B, C]` — and an order with no duplicated entries. -/
theorem c3_cycle_detection :
    (∀ (deep : Bool) (ctx : ResolveCtx)
       (recurse : String → List String → ResolverState → ResolverState)
       (path : List String) (st : ResolverState) (depFull : String),
       colonHead depFull ∉ installedNames ctx →
       colonHead depFull ∉ providedNames ctx →
       colonHead depFull ∈ st.visiting →
       processDep deep ctx recurse path st depFull =
         { st with cycles := st.cycles ++ [cycleSlice path (colonHead depFull)] }) ∧
    (resolveDependencyTree true cycleCtx ["A"]).cycles = [["A", "B", "C"]] ∧
    ((resolveDependencyTree true cycleCtx ["A"]).order.map (fun e => e.name)).Nodup ∧
    (resolveDependencyTree false cycleCtx ["A"]).cycles = [["A", "B", "C"]] ∧
    ((resolveDependencyTree false cycleCtx ["A"]).order.map (fun e => e.name)).Nodup := by
  refine ⟨?_, by decide, by decide, by decide, by decide⟩
  intro deep ctx recurse path st depFull h1 h2 h3
  simp only [processDep]
  rw [if_neg h1, if_neg h2, if_pos h3]

/-- C3 witness: the cycle-recording step applied at a concrete input —
a DFS standing at `B` below `A` over the cycle store meets the
dependency `A`, which is on the stack; the step appends the slice
`[A, B]` and nothing else, for an arbitrary continuation. -/
theorem c3_cycle_detection_witness :
    processDep true cycleCtx (fun _ _ s => s) ["A", "B"] c3StateW "A" =
      { c3StateW with cycles := c3StateW.cycles ++ [cycleSlice ["A", "B"] "A"] } :=
  c3_cycle_detection.1 true cycleCtx (fun _ _ s => s) ["A", "B"] c3StateW "A"
    (by decide) (by decide) (by decide)

/-- C4: shallow traversal marks an installed dependency satisfied and
does not recurse into it (the step is independent of the continuation
and changes only the satisfied set); deep traversal skips an installed
dependency already in the satisfied set entirely, and on first
encounter (not yet satisfied, not yet visited) marks it satisfied and
recurses into it.  Hence for `A → B` with `B` installed, `B → C` a real
edge and `C` not installed: shallow resolution of `A` yields order
`[A]` (`C` never discovered), deep resolution yields `[C, A]` (`C`
discovered through `B`, `B` itself dropped from the final order because
it is installed). -/
theorem c4_shallow_vs_deep :
    (∀ (ctx : ResolveCtx)
       (recurse : String → List String → ResolverState → ResolverState)
       (path : List String) (st : ResolverState) (depFull : String),
       colonHead depFull ∈ installedNames ctx →
       processDep false ctx recurse path st depFull =
         { st with satisfied := insertIfAbsent (colonHead depFull) st.satisfied }) ∧
    (∀ (ctx : ResolveCtx)
       (recurse : String → List String → ResolverState → ResolverState)
       (path : List String) (st : ResolverState) (depFull : String),
       colonHead depFull ∈ installedNames ctx →
       colonHead depFull ∈ st.satisfied →
       processDep true ctx recurse path st depFull = st) ∧
    (∀ (ctx : ResolveCtx)
       (recurse : String → List String → ResolverState → ResolverState)
       (path : List String) (st : ResolverState) (depFull : String),
       colonHead depFull ∈ installedNames ctx →
       colonHead depFull ∉ st.satisfied →
       colonHead depFull ∉ st.visited →
       processDep true ctx recurse path st depFull =
         recurse (colonHead depFull) path
           { st with satisfied := st.satisfied ++ [colonHead depFull] }) ∧
    (resolveDependencyTree false c4Ctx ["A"]).order.map (fun e => e.name) = ["A"] ∧
    (resolveDependencyTree true c4Ctx ["A"]).order.map (fun e => e.name) = ["C", "A"] := by
  refine ⟨?_, ?_, ?_, by decide, by decide⟩
  · intro ctx recurse path st depFull h1
    simp only [processDep]
    rw [if_pos h1]
    simp
  · intro ctx recurse path st depFull h1 h2
    simp only [processDep]
    rw [if_pos h1]
    simp [h2]
  · intro ctx recurse path st depFull h1 h2 h3
    simp only [processDep]
    rw [if_pos h1]
    simp [h2, h3]

/-- C4 witness: deep traversal meeting the installed dependency `B`
when `B` is already in the satisfied set leaves the state untouched,
for an arbitrary continuation, at the C4 context. -/
theorem c4_shallow_vs_deep_witness :
    processDep true c4Ctx (fun _ _ s => s) ["A"] c4StateW "B" = c4StateW :=
  c4_shallow_vs_deep.2.1 c4Ctx (fun _ _ s => s) ["A"] c4StateW "B"
    (by decide) (by decide)

/-- Helper: the request-resolution loop fails as a whole as soon as any
requested name fails to resolve. -/
theorem resolveNames_eq_none_of_mem (st : DbState) :
    ∀ (names : List String) (n : String), n ∈ names →
      packageInfoSrc st (colonHead n) none = none →
      resolveNames st names = none := by
  intro names
  induction names with
  | nil => intro n hn; exact absurd hn (List.not_mem_nil n)
  | cons m rest ih =>
    intro n hn hnone
    rcases List.mem_cons.1 hn with h | h
    · subst h
      simp [resolveNames, hnone]
    · unfold resolveNames
      cases hinfo : packageInfoSrc st (colonHead m) none with
      | none => rfl
      | some r => rw [ih n h hnone]; rfl

/-- C8: if any requested package name (stripped at the first colon)
does not resolve through `package_info`, the whole dependency
resolution — shallow and deep — aborts and returns the explicit empty
result (empty order, cycles, installed and satisfied), never a partial
plan. -/
theorem c8_unresolvable_aborts_empty (ctx : ResolveCtx) (names : List String)
    (h : ∃ n ∈ names, packageInfoSrc ctx.db (colonHead n) none = none) :
    resolveDependencyTree true ctx names = emptyResult ∧
    resolveDependencyTree false ctx names = emptyResult := by
  obtain ⟨n, hn, hnone⟩ := h
  have hres := resolveNames_eq_none_of_mem ctx.db names n hn hnone
  constructor <;> · unfold resolveDependencyTree; rw [hres]

/-- C8 witness: requesting the unknown name `ghost` against an empty
store returns the empty result in both modes. -/
theorem c8_unresolvable_aborts_empty_witness :
    resolveDependencyTree true ghostCtx ["ghost"] = emptyResult ∧
    resolveDependencyTree false ghostCtx ["ghost"] = emptyResult :=
  c8_unresolvable_aborts_empty ghostCtx ["ghost"]
    ⟨"ghost", by decide, by decide⟩

/-- C7: in enriched dependency resolution, when some system-repository
package provides the dependency name, every upstream (`aur`)-sourced
`replaces` candidate is excluded from the provider list; the list is a
permutation of the surviving candidates and is sorted by the precedence
key — system-repository sources before `aur`, then class order
`replaces < provides < direct`, then package name. -/
theorem c7_provider_precedence (st : DbState) (dep : String)
    (h : ∃ c ∈ gatherCandidates st dep,
      c.resolutionType = "provides" ∧ c.source ≠ "aur") :
    (∀ c ∈ enrichedProviders st dep,
      ¬(c.resolutionType = "replaces" ∧ c.source = "aur")) ∧
    (enrichedProviders st dep).Sorted candLE ∧
    (enrichedProviders st dep).Perm
      ((gatherCandidates st dep).filter
        (fun c => ¬(c.resolutionType = "replaces" ∧ c.source = "aur"))) := by
  have hany : (gatherCandidates st dep).any
      (fun c => decide (c.resolutionType = "provides" ∧ c.source ≠ "aur")) = true := by
    rw [List.any_eq_true]
    obtain ⟨c, hc, hp⟩ := h
    exact ⟨c, hc, by simpa using hp⟩
  have hval : enrichedProviders st dep =
      ((gatherCandidates st dep).filter
        (fun c => ¬(c.resolutionType = "replaces" ∧ c.source = "aur"))).insertionSort
        candLE := by
    simp only [enrichedProviders]
    rw [if_pos hany]
  refine ⟨?_, ?_, ?_⟩
  · intro c hc
    rw [hval] at hc
    exact of_decide_eq_true (List.mem_filter.1 ((List.mem_insertionSort candLE).1 hc)).2
  · rw [hval]; exact List.sorted_insertionSort candLE _
  · rw [hval]; exact List.perm_insertionSort candLE _

/-- C7 witness: with `V` replaced by the upstream package `U` and
provided by the repository package `R`, the enriched provider list for
`V` contains no upstream `replaces` candidate (so `U` is excluded), is
sorted, and is a permutation of the surviving candidates — here exactly
`R`. -/
theorem c7_provider_precedence_witness :
    (∀ c ∈ enrichedProviders c7Db "V",
      ¬(c.resolutionType = "replaces" ∧ c.source = "aur")) ∧
    (enrichedProviders c7Db "V").Sorted candLE ∧
    (enrichedProviders c7Db "V").Perm
      ((gatherCandidates c7Db "V").filter
        (fun c => ¬(c.resolutionType = "replaces" ∧ c.source = "aur"))) :=
  c7_provider_precedence c7Db "V"
    ⟨⟨"R", "extra", "provides"⟩, by decide, by decide⟩

/-- Helper: `takeWhile` over an append stops exactly at the first
element failing the predicate. -/
theorem takeWhile_append_stop {α : Type} (p : α → Bool) :
    ∀ (cs : List α) (d : α) (rest : List α),
      (∀ c ∈ cs, p c = true) → p d = false →
      (cs ++ d :: rest).takeWhile p = cs := by
  intro cs
  induction cs with
  | nil => intro d rest _ hd; simp [List.takeWhile_cons, hd]
  | cons x xs ih =>
    intro d rest hall hd
    have hx : p x = true := hall x (List.mem_cons_self x xs)
    simp only [List.cons_append, List.takeWhile_cons, hx, if_true]
    rw [ih d rest (fun c hc => hall c (List.mem_cons_of_mem x hc)) hd]

/-- Helper: `takeWhile` keeps a list all of whose elements satisfy the
predicate. -/
theorem takeWhile_of_all {α : Type} (p : α → Bool) :
    ∀ (cs : List α), (∀ c ∈ cs, p c = true) → cs.takeWhile p = cs := by
  intro cs
  induction cs with
  | nil => intro; rfl
  | cons x xs ih =>
    intro hall
    have hx : p x = true := hall x (List.mem_cons_self x xs)
    simp only [List.takeWhile_cons, hx, if_true]
    rw [ih (fun c hc => hall c (List.mem_cons_of_mem x hc))]

/-- Helper: `dropWhile` keeps a list none of whose elements satisfy the
predicate. -/
theorem dropWhile_of_none {α : Type} (p : α → Bool) (cs : List α)
    (h : ∀ c ∈ cs, p c = false) : cs.dropWhile p = cs := by
  cases cs with
  | nil => rfl
  | cons x xs =>
    simp [List.dropWhile_cons, h x (List.mem_cons_self x xs)]

/-- Helper: stripping whitespace from a whitespace-free character list
is the identity. -/
theorem trimChars_of_no_ws (cs : List Char)
    (h : ∀ c ∈ cs, c.isWhitespace = false) : trimChars cs = cs := by
  unfold trimChars
  rw [dropWhile_of_none _ cs h,
      dropWhile_of_none _ cs.reverse (fun c hc => h c (List.mem_reverse.1 hc)),
      List.reverse_reverse]

/-- A package name free of constraint separators, colons and
whitespace, so that specifier normalisation leaves it intact. -/
def plainName (s : String) : Prop :=
  ∀ c ∈ s.data, (c == '<' || c == '>' || c == '=' || c == ':' || c.isWhitespace) = false

instance (s : String) : Decidable (plainName s) :=
  inferInstanceAs (Decidable (∀ c ∈ s.data, _ = false))

/-- Helper: normalising `name=version` for a plain `name` recovers
`name` — the token is cut at the `=`, and stripping and colon-splitting
leave the plain name unchanged. -/
theorem baseToken_name_eq (name v : String) (h : plainName name) :
    baseToken (name ++ "=" ++ v) = name := by
  have hcomp : ∀ c ∈ name.data,
      c ≠ '<' ∧ c ≠ '>' ∧ c ≠ '=' ∧ c ≠ ':' ∧ c.isWhitespace = false := by
    intro c hc
    have := h c hc
    simp only [Bool.or_eq_false_iff, beq_eq_false_iff_ne] at this
    exact ⟨this.1.1.1.1, this.1.1.1.2, this.1.1.2, this.1.2, this.2⟩
  have heqd : "=".data = ['='] := by decide
  have hdata : (name ++ "=" ++ v).data = name.data ++ '=' :: v.data := by
    rw [String.data_append, String.data_append, heqd, List.append_assoc]
    rfl
  unfold baseToken splitConstraint splitColon
  rw [hdata]
  rw [takeWhile_append_stop _ name.data '=' v.data
      (fun c hc => by
        have := hcomp c hc
        simp [this.1, this.2.1, this.2.2.1])
      (by decide)]
  rw [trimChars_of_no_ws name.data (fun c hc => (hcomp c hc).2.2.2.2)]
  rw [takeWhile_of_all _ name.data
      (fun c hc => by
        have := hcomp c hc
        simp [this.2.2.2.1])]

/-- Helper: an element is always a member of `insertIfAbsent` of
itself. -/
theorem mem_insertIfAbsent_self (x : String) (l : List String) :
    x ∈ insertIfAbsent x l := by
  unfold insertIfAbsent
  split
  · assumption
  · exact List.mem_append_right l (List.mem_singleton.2 rfl)

/-- Helper: `_prepare_link_data` over a repo package's fields always
contains the self-provide link `name=cleaned_version`. -/
theorem selfProvide_mem_prepareLinkData (p : RepoPkg) (src : String)
    (hsrc : src ≠ "aur") (hv : p.version ≠ "") :
    (⟨p.name, src, "Provides", p.name ++ "=" ++ cleanVersion p.version⟩ : Link) ∈
      prepareLinkData p.name p.version src (repoLinkFields p) := by
  unfold prepareLinkData
  apply List.mem_flatten.2
  refine ⟨fieldLinks p.name p.version src "Provides" (some p.provides), ?_, ?_⟩
  · have hfield : ("Provides", some p.provides) ∈ repoLinkFields p := by
      simp [repoLinkFields]
    exact List.mem_map_of_mem _ hfield
  · simp only [fieldLinks]
    rw [if_pos ⟨trivial, hsrc, hv⟩]
    exact List.mem_map_of_mem _
      (mem_insertIfAbsent_self (p.name ++ "=" ++ cleanVersion p.version) _)

/-- C6: ingesting a non-upstream package `P` (source other than `aur`)
with a non-empty version `V` stores a `Provides` link owned by `P`
whose target pairs `P`'s own name with its cleaned version, and a
version-qualified provider lookup `search_by_provides("P=V")` returns
`P` — exactly as a lookup of a virtual name `P` provides would. -/
theorem c6_self_provide (p : RepoPkg) (src : String) (st : DbState)
    (hsrc : src ≠ "aur") (hv : p.version ≠ "") (hname : plainName p.name) :
    (⟨p.name, src, "Provides", p.name ++ "=" ++ cleanVersion p.version⟩ : Link) ∈
      (insertRepoPkg st [(p, src)]).links ∧
    (p.name, src) ∈
      searchByProvides (insertRepoPkg st [(p, src)]) (p.name ++ "=" ++ p.version) := by
  have hmem : (⟨p.name, src, "Provides",
      p.name ++ "=" ++ cleanVersion p.version⟩ : Link) ∈
      (insertRepoPkg st [(p, src)]).links := by
    unfold insertRepoPkg
    simp only [List.map_cons, List.map_nil, List.flatten_cons, List.flatten_nil,
      List.append_nil]
    exact List.mem_append_right _ (selfProvide_mem_prepareLinkData p src hsrc hv)
  refine ⟨hmem, ?_⟩
  unfold searchByProvides
  rw [baseToken_name_eq p.name p.version hname]
  apply List.mem_map.2
  refine ⟨⟨p.name, src, "Provides", p.name ++ "=" ++ cleanVersion p.version⟩,
    List.mem_filter.2 ⟨hmem, ?_⟩, rfl⟩
  apply decide_eq_true
  refine ⟨rfl, Or.inr ?_⟩
  unfold likeEq
  have heqd : "=".data = ['='] := by decide
  rw [String.data_append, String.data_append, heqd]
  exact List.prefix_append _ _

/-- C6 witness: the repo package `W` (version `2:1.5-3`) ingested under
`core` into an empty store carries the self-provide link `W=1.5`, and
`search_by_provides("W=2:1.5-3")` returns `(W, core)`. -/
theorem c6_self_provide_witness :
    (⟨"W", "core", "Provides", "W" ++ "=" ++ cleanVersion "2:1.5-3"⟩ : Link) ∈
      (insertRepoPkg emptyDb [(rpW, "core")]).links ∧
    ("W", "core") ∈
      searchByProvides (insertRepoPkg emptyDb [(rpW, "core")]) ("W" ++ "=" ++ "2:1.5-3") :=
  c6_self_provide rpW "core" emptyDb (by decide) (by decide) (by decide)

/-- Helper: membership in `dedupFirst` implies membership in the
original list. -/
theorem mem_of_mem_dedupFirst_aux (x : String) :
    ∀ (l acc : List String),
      x ∈ l.foldl (fun acc y => if y ∈ acc then acc else acc ++ [y]) acc →
      x ∈ acc ∨ x ∈ l := by
  intro l
  induction l with
  | nil => intro acc h; exact Or.inl h
  | cons y ys ih =>
    intro acc h
    rcases ih _ h with h' | h'
    · have hif : x ∈ (if y ∈ acc then acc else acc ++ [y]) := h'
      by_cases hy : y ∈ acc
      · rw [if_pos hy] at hif
        exact Or.inl hif
      · rw [if_neg hy] at hif
        rcases List.mem_append.1 hif with h'' | h''
        · exact Or.inl h''
        · exact Or.inr (List.mem_cons.2 (Or.inl (List.mem_singleton.1 h'')))
    · exact Or.inr (List.mem_cons_of_mem y h')

/-- Helper: `dedupFirst` only returns members of its input. -/
theorem mem_of_mem_dedupFirst {x : String} {l : List String}
    (h : x ∈ dedupFirst l) : x ∈ l := by
  rcases mem_of_mem_dedupFirst_aux x l [] h with h' | h'
  · exact absurd h' (List.not_mem_nil x)
  · exact h'

/-- C10 counterexample: the claim says link targets are normalised
(version-constraint suffixes and trailing descriptions stripped) before
matching against the queried names.  The code's SQL filters on the raw
target (`l.target IN (...)`), so the link `X --Depends--> "P>=1.0"` is
never matched for the query `get_dependants("P", [])`: the code returns
an empty map where the claim's reading returns `P ↦ [X]`. -/
theorem c10_counterexample_versioned_target :
    getDependants c10Db "P" [] = [] ∧
    dependantsNormalizedSpec c10Db "P" [] =
      [("P", [⟨"X", "aur", "Depends"⟩])] ∧
    getDependants c10Db "P" [] ≠ dependantsNormalizedSpec c10Db "P" [] := by
  refine ⟨?_, ?_, ?_⟩ <;> decide

/-- C10 amended: `get_dependants(name, provides)` returns a map with a
key only for queried names having at least one dependant — names with
no matching link are omitted entirely, never mapped to an empty list —
and every returned entry stems from an actual link row joined with its
owning package, recording that package's name and source and the link's
dependency type; a link is matched only when its raw target is exactly
one of the queried names (the normalisation is applied after this exact
SQL match, so version-qualified or described targets never match). -/
theorem c10_amended_exact_target_match (st : DbState) (pn : String)
    (pr : List String) :
    (∀ kv ∈ getDependants st pn pr, kv.2 ≠ [] ∧ kv.1 ∈ pn :: pr) ∧
    (∀ kv ∈ getDependants st pn pr, ∀ e ∈ kv.2,
      ∃ l ∈ st.links, l.linkType ∈ depLinkTypes ∧ l.target ∈ pn :: pr ∧
        baseToken l.target = kv.1 ∧
        ∃ prow ∈ st.packages, prow.name = l.name ∧ prow.source = l.source ∧
          e = ⟨prow.name, prow.source, l.linkType⟩) := by
  constructor
  · intro kv hkv
    simp only [getDependants] at hkv
    have h1 := List.mem_filter.1 hkv
    refine ⟨of_decide_eq_true h1.2, ?_⟩
    obtain ⟨k, hk, hkeq⟩ := List.mem_map.1 h1.1
    rw [← hkeq]
    exact mem_of_mem_dedupFirst hk
  · intro kv hkv e he
    simp only [getDependants] at hkv
    have h1 := List.mem_filter.1 hkv
    obtain ⟨k, _, hkeq⟩ := List.mem_map.1 h1.1
    rw [← hkeq] at he
    obtain ⟨te, hte, hsome⟩ := List.mem_filterMap.1 he
    obtain ⟨block, hblock, hteblock⟩ := List.mem_flatten.1 hte
    obtain ⟨l, hl, hbeq⟩ := List.mem_map.1 hblock
    have hlf := List.mem_filter.1 hl
    have hlprop := of_decide_eq_true hlf.2
    rw [← hbeq] at hteblock
    obtain ⟨prow, hprow, hteq⟩ := List.mem_map.1 hteblock
    have hpf := List.mem_filter.1 hprow
    have hpprop := of_decide_eq_true hpf.2
    by_cases hcond : baseToken te.1 = k
    · rw [if_pos hcond] at hsome
      refine ⟨l, hlf.1, hlprop.1, hlprop.2, ?_, prow, hpf.1,
        hpprop.1, hpprop.2, ?_⟩
      · rw [← hkeq, ← hcond, ← hteq]
      · rw [← Option.some_inj.1 hsome, ← hteq]
    · rw [if_neg hcond] at hsome
      exact absurd hsome (Option.noConfusion)

/-- C10 amended witness: for the store where `X` depends on the bare
target `P`, the returned entry for the key `P` is non-empty and `P` is
among the queried names. -/
theorem c10_amended_exact_target_match_witness :
    ([(⟨"X", "aur", "Depends"⟩ : DependantEntry)] ≠ []) ∧
    "P" ∈ ["P"] :=
  (c10_amended_exact_target_match c10DbExact "P" []).1
    ("P", [⟨"X", "aur", "Depends"⟩]) (by decide)

end Aurdex
